import Mathlib

/-!
Verification development for the US Code 1925 DOCX-to-XML extractor
(`make_xml_from_docx.py`).

The Python program's core is a line-oriented parser: a `normalize` function
(en-dash to em-dash, whitespace collapsing, trimming), four regular
expressions classifying lines, `build_title_name`, and `to_xml_tree`, which
skips a preamble and then runs a single loop creating Chapter and Section
nodes.  This file gives a shallow embedding of that core: strings are
Lean `String`s (lists of characters), the regexes are replaced by
hand-derived deterministic matching functions that realise exactly the
backtracking behaviour of the Python patterns on anchored input, and the
two `while` loops become structurally recursive functions (the main loop
is written with an explicit fuel argument equal to the number of remaining
lines, which suffices because every iteration of the Python loop advances
the cursor `i` by at least one).

The XML pretty-printing step of the source mutates only the whitespace
`text`/`tail` of elements that have children; Section bodies and all `name`
attributes are untouched by it, so the tree model here omits it.
-/

namespace USC

/-- Python's `\s` character class (and the default `str.strip` set):
space, `\t`-`\r`, the C1/Unicode whitespace code points. -/
def pyIsSpace (c : Char) : Bool :=
  let n := c.toNat
  n == 32 || (decide (9 ≤ n) && decide (n ≤ 13)) ||
  (decide (28 ≤ n) && decide (n ≤ 31)) || n == 133 || n == 160 ||
  n == 5760 || (decide (8192 ≤ n) && decide (n ≤ 8202)) ||
  n == 8232 || n == 8233 || n == 8239 || n == 8287 || n == 12288

/-- `str.strip()` / trailing part of `re` `\s*$` on a character list:
drop whitespace from both ends. -/
def stripL (cs : List Char) : List Char :=
  ((cs.dropWhile pyIsSpace).reverse.dropWhile pyIsSpace).reverse

/-- `s.rstrip(chars)`: drop the characters satisfying `p` from the right end. -/
def rstripL (p : Char → Bool) (cs : List Char) : List Char :=
  (cs.reverse.dropWhile p).reverse

/-- `str.strip()` on a `String`. -/
def pyStrip (s : String) : String := ⟨stripL s.data⟩

/-- The character substitution of `s.replace("–", "—")` (en dash → em dash). -/
def normChar (c : Char) : Char := if c = '–' then '—' else c

/-- `re.sub(r"\s+", " ", s)`: collapse every maximal whitespace run into a
single space.  The boolean flag records whether the previous input
character was whitespace (in which case the run's single space has
already been emitted). -/
def collapseAux : Bool → List Char → List Char
  | _, [] => []
  | prevSpace, c :: rest =>
    if pyIsSpace c then
      if prevSpace then collapseAux true rest
      else ' ' :: collapseAux true rest
    else c :: collapseAux false rest

/-- `normalize` from the source: en dash → em dash, collapse whitespace
runs to single spaces, strip. -/
def normalizeL (cs : List Char) : List Char :=
  stripL (collapseAux false (cs.map normChar))

/-- `normalize` on `String`s. -/
def normalize (s : String) : String := ⟨normalizeL s.data⟩

/-- Case-insensitive literal prefix of a regex (`re.IGNORECASE`): if the
lowercased input starts with `pat` (given lowercase), return the rest of
the input, otherwise fail. -/
def ciPrefixDrop (pat : List Char) (cs : List Char) : Option (List Char) :=
  if pat.isPrefixOf (cs.map Char.toLower) then some (cs.drop pat.length)
  else none

/-- The group captured by `(.+?)\.?\s*$` applied to the text `u` after the
em dash of `RE_CHAPTER_HEAD`, together with the backtracking of the
greedy `\s*` that precedes the group.

Derivation from the regex semantics: the engine first gives the maximal
whitespace run `a` of `u` to the preceding `\s*`, leaving `r`.  If `r` is
nonempty, the lazy `(.+?)` takes the shortest nonempty prefix such that
the remainder matches `\.?\s*$`, i.e. the remainder is the longest suffix
of `r` consisting of an optional period followed by whitespace — so the
group is `r` minus its whitespace suffix, minus one further trailing
period when one exists and at least one character remains.  If `r` is
empty the engine backtracks the preceding `\s*` by one character (when it
consumed any), and the group is that single whitespace character. -/
def chapGroup2 (u : List Char) : Option (List Char) :=
  let a := u.takeWhile pyIsSpace
  let r := u.dropWhile pyIsSpace
  if r = [] then
    (a.getLast?).map (fun c => [c])
  else
    let r1 := rstripL pyIsSpace r
    if r1.getLast? = some '.' ∧ 2 ≤ r1.length then some r1.dropLast
    else some r1

/-- The group captured by `(.+?)\s*$` applied to the text after the em dash
of `RE_TITLE_LINE_MIN` (same derivation as `chapGroup2`, without the
optional period). -/
def titleGroup2 (u : List Char) : Option (List Char) :=
  let a := u.takeWhile pyIsSpace
  let r := u.dropWhile pyIsSpace
  if r = [] then (a.getLast?).map (fun c => [c])
  else some (rstripL pyIsSpace r)

/-- `RE_CHAPTER_HEAD = ^Chapter\s+(\d+)\.?\s*—\s*(.+?)\.?\s*$` (IGNORECASE),
applied with `re.match` to a whole line; returns the two captured groups.
The literal, `\s+`, `\d+`, `\.?` and `\s*` parts are all deterministic
(each greedy item is followed by an item that cannot match the characters
it consumed), and the lazy tail group is `chapGroup2`. -/
def chapterHeadL (cs : List Char) : Option (List Char × List Char) :=
  match ciPrefixDrop ['c','h','a','p','t','e','r'] cs with
  | none => none
  | some t0 =>
    if t0.takeWhile pyIsSpace = [] then none
    else
      let t1 := t0.dropWhile pyIsSpace
      let ds := t1.takeWhile Char.isDigit
      if ds = [] then none
      else
        let t2 := t1.dropWhile Char.isDigit
        let t3 := match t2 with
          | '.' :: r => r
          | r => r
        match t3.dropWhile pyIsSpace with
        | '—' :: u => (chapGroup2 u).map (fun g => (ds, g))
        | _ => none

/-- `RE_TITLE_LINE_MIN = ^TITLE\s+(\d+)\.\s*—\s*(.+?)\s*$` (IGNORECASE);
here the period after the digits is mandatory. -/
def titleLineL (cs : List Char) : Option (List Char × List Char) :=
  match ciPrefixDrop ['t','i','t','l','e'] cs with
  | none => none
  | some t0 =>
    if t0.takeWhile pyIsSpace = [] then none
    else
      let t1 := t0.dropWhile pyIsSpace
      let ds := t1.takeWhile Char.isDigit
      if ds = [] then none
      else
        match t1.dropWhile Char.isDigit with
        | '.' :: t3 =>
          match t3.dropWhile pyIsSpace with
          | '—' :: u => (titleGroup2 u).map (fun g => (ds, g))
          | _ => none
        | _ => none

/-- Split `r` as `p ++ '—' :: u` where the dash is the first em dash at
index ≥ 1, as forced by `(.+?)\s*—` when `r` starts with a
non-whitespace character: the lazy group must take at least the first
character, and the first reachable dash wins. -/
def dashSplitGe1 : List Char → Option (List Char × List Char)
  | [] => none
  | c :: rest =>
    let p := rest.takeWhile (fun x => x ≠ '—')
    match rest.dropWhile (fun x => x ≠ '—') with
    | _ :: u => some (c :: p, u)
    | [] => none

/-- The common part `^(\d+)\.\s*(.+?)\s*—` of `RE_SECTION_INLINE` and of the
inline body-start pattern of the main loop; returns the digit group, the
title group and the text after the chosen em dash.

After the mandatory period the greedy `\s*` takes the maximal whitespace
run `a`, leaving `r` (which is empty or starts with non-whitespace).  The
lazy title group then extends to the first em dash at index ≥ 1 of `r`,
with the whitespace just before the dash going to the second `\s*`.  If
the only em dash of `r` is its first character, the engine backtracks the
first `\s*` by one character (when possible) and the title group is that
single whitespace character. -/
def secCore (cs : List Char) : Option (List Char × List Char × List Char) :=
  let ds := cs.takeWhile Char.isDigit
  if ds = [] then none
  else
    match cs.dropWhile Char.isDigit with
    | '.' :: t1 =>
      let a := t1.takeWhile pyIsSpace
      let r := t1.dropWhile pyIsSpace
      match dashSplitGe1 r with
      | some (p, u) => some (ds, rstripL pyIsSpace p, u)
      | none =>
        match r, a.getLast? with
        | '—' :: u, some c => some (ds, [c], u)
        | _, _ => none
    | _ => none

/-- `RE_SECTION_INLINE = ^(\d+)\.\s*(.+?)\s*—\s*(.+)$`: requires at least one
character after the em dash; the final group is the rest of the line
after the greedy `\s*`, except that when everything after the dash is
whitespace the engine backtracks `\s*` to leave a single character. -/
def sectionInlineL (cs : List Char) : Option (List Char × List Char × List Char) :=
  match secCore cs with
  | none => none
  | some (ds, tl, u) =>
    if u = [] then none
    else
      let v := u.dropWhile pyIsSpace
      if v = [] then (u.getLast?).map (fun c => (ds, tl, [c]))
      else some (ds, tl, v)

/-- The anonymous pattern `^(\d+)\.\s*(.+?)\s*—\s*(.*)$` of the main loop
(body may be empty): the final group is the text after the dash with its
leading whitespace removed. -/
def sectionBodyStartL (cs : List Char) : Option (List Char × List Char × List Char) :=
  (secCore cs).map (fun (ds, tl, u) => (ds, tl, u.dropWhile pyIsSpace))

/-- `RE_SECTION_HEADER = ^(\d+)\.\s` used only as a test: digits, a period,
then one whitespace character. -/
def sectionHeaderL (cs : List Char) : Bool :=
  if cs.takeWhile Char.isDigit = [] then false
  else
    match cs.dropWhile Char.isDigit with
    | '.' :: c :: _ => pyIsSpace c
    | _ => false

/-- `RE_CHAPTER_HEAD.match` on a `String`, with `String` groups. -/
def RE_CHAPTER_HEAD (s : String) : Option (String × String) :=
  (chapterHeadL s.data).map (fun g => (⟨g.1⟩, ⟨g.2⟩))

/-- `RE_TITLE_LINE_MIN.match` on a `String`, with `String` groups. -/
def RE_TITLE_LINE_MIN (s : String) : Option (String × String) :=
  (titleLineL s.data).map (fun g => (⟨g.1⟩, ⟨g.2⟩))

/-- `RE_SECTION_INLINE.match` on a `String`, with `String` groups. -/
def RE_SECTION_INLINE (s : String) : Option (String × String × String) :=
  (sectionInlineL s.data).map (fun g => (⟨g.1⟩, ⟨g.2.1⟩, ⟨g.2.2⟩))

/-- The main loop's inline `re.match(r'^(\d+)\.\s*(.+?)\s*—\s*(.*)$', line)`. -/
def RE_SECTION_BODYSTART (s : String) : Option (String × String × String) :=
  (sectionBodyStartL s.data).map (fun g => (⟨g.1⟩, ⟨g.2.1⟩, ⟨g.2.2⟩))

/-- `RE_SECTION_HEADER.match` used as a boolean test. -/
def RE_SECTION_HEADER (s : String) : Bool := sectionHeaderL s.data

/-- A `<Section>` element: its `name` attribute and its text body. -/
structure USSection where
  name : String
  body : String
deriving Repr, DecidableEq

/-- A `<Chapter>` element: its `name` attribute and its child sections in
document order. -/
structure USChapter where
  name : String
  sections : List USSection
deriving Repr, DecidableEq

/-- The output tree of `to_xml_tree`: the `<Title>` element's `name`
attribute, the returned title number, and the chapters in document order. -/
structure USTitleTree where
  titleNum : String
  titleName : String
  chapters : List USChapter
deriving Repr, DecidableEq

/-- The chapter name stored by `start_chapter`:
`f"Chapter {num}.—{name.strip().rstrip('.')}."`. -/
def startChapterName (num nm : String) : String :=
  "Chapter " ++ num ++ ".—" ++ (⟨rstripL (fun c => c = '.') (stripL nm.data)⟩ : String) ++ "."

/-- The section built by `add_section`: name `f"{num}. {title.strip()}"`,
text `body.strip()`. -/
def mkSection (num title body : String) : USSection :=
  { name := num ++ ". " ++ pyStrip title, body := pyStrip body }

/-- `add_section`'s effect on the builder state.  The state is the chapter
currently being filled (`none` before any chapter exists) together with
the list of chapters already completed; `start_chapter` moves the current
chapter into the completed list and opens a new one.  When no chapter is
open, `add_section` first runs `start_chapter("0", "UNSPECIFIED")`. -/
def addSection (cur : Option USChapter) (done : List USChapter)
    (num title body : String) : Option USChapter × List USChapter :=
  match cur with
  | none =>
    (some { name := startChapterName "0" "UNSPECIFIED",
            sections := [mkSection num title body] }, done)
  | some c =>
    (some { c with sections := c.sections ++ [mkSection num title body] }, done)

/-- The stop condition of the body-continuation scan (line 108 of the
source): chapter header, inline section, or digits-plus-period. -/
def isStop (l : String) : Bool :=
  (RE_CHAPTER_HEAD l).isSome || (RE_SECTION_INLINE l).isSome || RE_SECTION_HEADER l

/-- `"\n".join(body_lines)`. -/
def joinNl : List String → String
  | [] => ""
  | [x] => x
  | x :: y :: xs => x ++ "\n" ++ joinNl (y :: xs)

/-- The main `while i < len(paras)` loop of `to_xml_tree`, one constructor
case per branch, with an explicit fuel argument.  Fuel equal to the
number of remaining lines always suffices, because every iteration of the
Python loop advances the cursor by at least one line: the
body-continuation scan starts at `i + 1` and only advances, and its
result (`rest.dropWhile`) is a suffix of the remaining input. -/
def parseLoopF : Nat → List String → Option USChapter → List USChapter → List USChapter
  | _, [], cur, done => done ++ cur.toList
  | 0, _ :: _, cur, done => done ++ cur.toList
  | fuel + 1, l :: rest, cur, done =>
    match RE_CHAPTER_HEAD l with
    | some (num, nm) =>
      parseLoopF fuel rest
        (some { name := startChapterName num nm, sections := [] })
        (done ++ cur.toList)
    | none =>
      match RE_SECTION_INLINE l with
      | some (num, tl, bd) =>
        let st := addSection cur done num tl bd
        parseLoopF fuel rest st.1 st.2
      | none =>
        match RE_SECTION_BODYSTART l with
        | some (num, tl, fb) =>
          let bodyLines :=
            (if fb = "" then [] else [fb]) ++ rest.takeWhile (fun x => !isStop x)
          let st := addSection cur done num tl (joinNl bodyLines)
          parseLoopF fuel (rest.dropWhile (fun x => !isStop x)) st.1 st.2
        | none => parseLoopF fuel rest cur done

/-- The main loop, started with adequate fuel. -/
def parseLoop (ps : List String) (cur : Option USChapter) (done : List USChapter) :
    List USChapter :=
  parseLoopF ps.length ps cur done

/-- The TOC-noise test of the preamble loop (line 63 of the source):
`line.lower().startswith("chapter") and "sec" in line.lower() and not
RE_CHAPTER_HEAD.match(line)`. -/
def containsSub (needle : List Char) : List Char → Bool
  | [] => needle.isEmpty
  | c :: rest => needle.isPrefixOf (c :: rest) || containsSub needle rest

/-- See `containsSub`; `isNoise` is the noise test itself. -/
def isNoise (l : String) : Bool :=
  (['c','h','a','p','t','e','r'].isPrefixOf (l.data.map Char.toLower)) &&
  containsSub ['s','e','c'] (l.data.map Char.toLower) &&
  !(RE_CHAPTER_HEAD l).isSome

/-- The preamble loop (lines 59-68 of the source): skip noise lines and any
other line until a chapter header is reached or the input is exhausted;
the main loop then starts at the returned suffix. -/
def preambleDrop : List String → List String
  | [] => []
  | l :: rest =>
    if isNoise l then preambleDrop rest
    else if (RE_CHAPTER_HEAD l).isSome then l :: rest
    else preambleDrop rest

/-- `str.find(sub)` as an option: index of the first occurrence of the
(case-sensitive) substring. -/
def subIdx (needle : List Char) : List Char → Option Nat
  | [] => if needle = [] then some 0 else none
  | c :: t =>
    if needle.isPrefixOf (c :: t) then some 0
    else (subIdx needle t).map (fun i => i + 1)

/-- `re.search(r'Title\s+(\d+)', stem, re.IGNORECASE)` tried at one
position: the literal (case-insensitively), at least one whitespace
character, then the maximal digit run as the group. -/
def tryTitleNumAt (cs : List Char) : Option (List Char) :=
  match ciPrefixDrop ['t','i','t','l','e'] cs with
  | none => none
  | some t =>
    if t.takeWhile pyIsSpace = [] then none
    else
      let ds := (t.dropWhile pyIsSpace).takeWhile Char.isDigit
      if ds = [] then none else some ds

/-- `re.search`: leftmost position where `tryTitleNumAt` succeeds. -/
def titleNumSearch : List Char → Option (List Char)
  | [] => none
  | c :: rest =>
    match tryTitleNumAt (c :: rest) with
    | some ds => some ds
    | none => titleNumSearch rest

/-- The scan of `build_title_name` over the paragraphs: the first line
matching `RE_TITLE_LINE_MIN`, with its two groups. -/
def titleScan : List String → Option (String × String)
  | [] => none
  | p :: rest =>
    match RE_TITLE_LINE_MIN p with
    | some g => some g
    | none => titleScan rest

/-- `build_title_name`: use the first `TITLE` line when there is one
(truncating the text at a literal `"Chapter"` and right-stripping spaces
and periods), otherwise fall back to the `Title <digits>` pattern of the
filename stem, or to `"?"`.  Returns `(title_num, title_display)`. -/
def buildTitleName (stem : String) (paras : List String) : String × String :=
  match titleScan paras with
  | some (num, text) =>
    let text2 : String :=
      match subIdx ['C','h','a','p','t','e','r'] text.data with
      | some i => ⟨rstripL (fun c => c = ' ' || c = '.') (text.data.take i)⟩
      | none => text
    (num, "TITLE " ++ num ++ ".—" ++ pyStrip text2)
  | none =>
    let num : String :=
      match titleNumSearch stem.data with
      | some ds => ⟨ds⟩
      | none => "?"
    (num, "TITLE " ++ num ++ ".—")

/-- The paragraph pipeline at the top of `to_xml_tree`:
`[normalize(p) for p in iter_docx_paragraph_text(...) if p.strip()]`.
The raw paragraph list stands in for the DOCX extraction. -/
def processParas (raws : List String) : List String :=
  (raws.filter (fun p => !(pyStrip p).isEmpty)).map normalize

/-- `to_xml_tree`, minus the I/O glue and pretty-printing: normalize the
paragraphs, build the title, skip the preamble, run the main loop.
`stem` is the filename stem used by the title fallback. -/
def toXmlTree (stem : String) (raws : List String) : USTitleTree :=
  let paras := processParas raws
  let tn := buildTitleName stem paras
  { titleNum := tn.1, titleName := tn.2,
    chapters := parseLoop (preambleDrop paras) none [] }

/-- A string ends in exactly one period: it is some prefix followed by `'.'`,
and the prefix (when nonempty) does not itself end in `'.'`. -/
def endsInOnePeriod (s : String) : Prop :=
  ∃ t, s.data = t ++ ['.'] ∧ ∀ c, t.getLast? = some c → c ≠ '.'

/-- The list of lines still to be processed after one iteration of the main
loop on input `l :: rest` — the projection of the cursor advance of
`parseLoopF` (cursor `i` becomes `i + 1` in the chapter, inline-section
and skip branches, and jumps to the end of the body-continuation scan in
the body-start branch). -/
def stepRem (l : String) (rest : List String) : List String :=
  match RE_CHAPTER_HEAD l with
  | some _ => rest
  | none =>
    match RE_SECTION_INLINE l with
    | some _ => rest
    | none =>
      match RE_SECTION_BODYSTART l with
      | some _ => rest.dropWhile (fun x => !isStop x)
      | none => rest

/-- A line in the canonical form the parser receives from `processParas`:
nonempty, with no leading or trailing whitespace (every output of
`normalize` on a paragraph with visible content has this shape). -/
def goodLine (s : String) : Bool :=
  !s.data.isEmpty &&
  (match s.data.head? with
   | some c => !pyIsSpace c
   | none => true) &&
  (match s.data.getLast? with
   | some c => !pyIsSpace c
   | none => true)

/-! ### Helper lemmas about the string primitives -/

theorem head?_dropWhile_false {α : Type} {p : α → Bool} {l : List α} {c : α}
    (h : (l.dropWhile p).head? = some c) : p c = false := by
  have hx := List.head?_dropWhile_not p l
  rw [h] at hx
  exact hx

theorem stripL_head {cs : List Char} {c : Char} (h : (stripL cs).head? = some c) :
    pyIsSpace c = false := by
  unfold stripL at h
  rw [List.head?_reverse] at h
  obtain ⟨t, ht⟩ := List.dropWhile_suffix (l := (cs.dropWhile pyIsSpace).reverse) pyIsSpace
  have h2 : ((cs.dropWhile pyIsSpace).reverse).getLast? = some c := by
    rw [← ht, List.getLast?_append, h]
    rfl
  rw [List.getLast?_reverse] at h2
  exact head?_dropWhile_false h2

theorem stripL_last {cs : List Char} {c : Char} (h : (stripL cs).getLast? = some c) :
    pyIsSpace c = false := by
  unfold stripL at h
  rw [List.getLast?_reverse] at h
  exact head?_dropWhile_false h

theorem rstripL_last {p : Char → Bool} {cs : List Char} {c : Char}
    (h : (rstripL p cs).getLast? = some c) : p c = false := by
  unfold rstripL at h
  rw [List.getLast?_reverse] at h
  exact head?_dropWhile_false h

theorem stripL_eq_self {cs : List Char}
    (h1 : ∀ c, cs.head? = some c → pyIsSpace c = false)
    (h2 : ∀ c, cs.getLast? = some c → pyIsSpace c = false) :
    stripL cs = cs := by
  unfold stripL
  have e1 : cs.dropWhile pyIsSpace = cs := by
    cases cs with
    | nil => rfl
    | cons a t =>
      rw [List.dropWhile_cons_of_neg]
      simp [h1 a rfl]
  rw [e1]
  have e2 : cs.reverse.dropWhile pyIsSpace = cs.reverse := by
    cases hr : cs.reverse with
    | nil => rfl
    | cons a t =>
      rw [List.dropWhile_cons_of_neg]
      have ha : cs.getLast? = some a := by
        rw [← List.head?_reverse, hr]
        rfl
      simp [h2 a ha]
  rw [e2, List.reverse_reverse]

theorem pyStrip_eq_self {s : String}
    (h1 : ∀ c, s.data.head? = some c → pyIsSpace c = false)
    (h2 : ∀ c, s.data.getLast? = some c → pyIsSpace c = false) :
    pyStrip s = s := by
  unfold pyStrip
  rw [stripL_eq_self h1 h2]

theorem toLower_c_not_digit {c : Char} (h : c.toLower = 'c') : c.isDigit = false := by
  by_contra hb
  simp only [Bool.not_eq_false] at hb
  simp only [Char.isDigit, Bool.and_eq_true, decide_eq_true_eq] at hb
  obtain ⟨hd1, hd2⟩ := hb
  have hn2 : c.val.toNat ≤ 57 := by
    simpa [UInt32.le_def, BitVec.le_def] using hd2
  have hlow : c.toLower = c := by
    unfold Char.toLower
    have hno : ¬ (c.toNat ≥ 65 ∧ c.toNat ≤ 90) := by
      simp only [Char.toNat]
      omega
    simp [hno]
  rw [hlow] at h
  subst h
  have : ('c').val.toNat = 99 := by decide
  omega

/-! ### Structural lemmas about the main loop -/

theorem addSection_snd (cur : Option USChapter) (done : List USChapter)
    (n t b : String) : (addSection cur done n t b).2 = done := by
  cases cur <;> rfl

theorem parseLoopF_nil (f : Nat) (cur : Option USChapter) (done : List USChapter) :
    parseLoopF f [] cur done = done ++ cur.toList := by
  cases f <;> rfl

theorem parseLoopF_zero (ps : List String) (cur : Option USChapter)
    (done : List USChapter) : parseLoopF 0 ps cur done = done ++ cur.toList := by
  cases ps <;> rfl

theorem parseLoopF_cons_chapter {l num nm : String}
    (h : RE_CHAPTER_HEAD l = some (num, nm)) (f : Nat) (rest : List String)
    (cur : Option USChapter) (done : List USChapter) :
    parseLoopF (f + 1) (l :: rest) cur done =
      parseLoopF f rest (some { name := startChapterName num nm, sections := [] })
        (done ++ cur.toList) := by
  simp only [parseLoopF, h]

theorem parseLoopF_cons_inline {l num tl bd : String}
    (h1 : RE_CHAPTER_HEAD l = none) (h2 : RE_SECTION_INLINE l = some (num, tl, bd))
    (f : Nat) (rest : List String) (cur : Option USChapter) (done : List USChapter) :
    parseLoopF (f + 1) (l :: rest) cur done =
      parseLoopF f rest (addSection cur done num tl bd).1 (addSection cur done num tl bd).2 := by
  simp only [parseLoopF, h1, h2]

theorem parseLoopF_cons_bodystart {l num tl fb : String}
    (h1 : RE_CHAPTER_HEAD l = none) (h2 : RE_SECTION_INLINE l = none)
    (h3 : RE_SECTION_BODYSTART l = some (num, tl, fb))
    (f : Nat) (rest : List String) (cur : Option USChapter) (done : List USChapter) :
    parseLoopF (f + 1) (l :: rest) cur done =
      parseLoopF f (rest.dropWhile (fun x => !isStop x))
        (addSection cur done num tl
          (joinNl ((if fb = "" then [] else [fb]) ++ rest.takeWhile (fun x => !isStop x)))).1
        (addSection cur done num tl
          (joinNl ((if fb = "" then [] else [fb]) ++ rest.takeWhile (fun x => !isStop x)))).2 := by
  simp only [parseLoopF, h1, h2, h3]

theorem parseLoopF_cons_skip {l : String}
    (h1 : RE_CHAPTER_HEAD l = none) (h2 : RE_SECTION_INLINE l = none)
    (h3 : RE_SECTION_BODYSTART l = none)
    (f : Nat) (rest : List String) (cur : Option USChapter) (done : List USChapter) :
    parseLoopF (f + 1) (l :: rest) cur done = parseLoopF f rest cur done := by
  simp only [parseLoopF, h1, h2, h3]

/-- Everything already in `done` survives to the output: the loop only ever
appends to the completed-chapter list. -/
theorem parseLoopF_done_sub : ∀ (f : Nat) (ps : List String) (cur : Option USChapter)
    (done : List USChapter), ∃ s, parseLoopF f ps cur done = done ++ s := by
  intro f
  induction f with
  | zero =>
    intro ps cur done
    exact ⟨cur.toList, parseLoopF_zero ps cur done⟩
  | succ f ih =>
    intro ps cur done
    cases ps with
    | nil => exact ⟨cur.toList, parseLoopF_nil _ cur done⟩
    | cons l rest =>
      rcases hch : RE_CHAPTER_HEAD l with _ | ⟨num, nm⟩
      · rcases hin : RE_SECTION_INLINE l with _ | ⟨num, tl, bd⟩
        · rcases hbs : RE_SECTION_BODYSTART l with _ | ⟨num, tl, fb⟩
          · rw [parseLoopF_cons_skip hch hin hbs]
            exact ih rest cur done
          · rw [parseLoopF_cons_bodystart hch hin hbs]
            rw [addSection_snd]
            exact ih _ _ done
        · rw [parseLoopF_cons_inline hch hin]
          rw [addSection_snd]
          exact ih rest _ done
      · rw [parseLoopF_cons_chapter hch]
        obtain ⟨s, hs⟩ := ih rest (some { name := startChapterName num nm, sections := [] })
          (done ++ cur.toList)
        exact ⟨cur.toList ++ s, by rw [hs, List.append_assoc]⟩

/-- The chapter currently being filled survives to the output with its
sections as a prefix: later lines only append sections to it or close it. -/
theorem parseLoopF_cur_mem : ∀ (f : Nat) (ps : List String) (c : USChapter)
    (done : List USChapter), ∃ c' extra, c' ∈ parseLoopF f ps (some c) done ∧
      c'.name = c.name ∧ c'.sections = c.sections ++ extra := by
  intro f
  induction f with
  | zero =>
    intro ps c done
    refine ⟨c, [], ?_, rfl, by simp⟩
    rw [parseLoopF_zero]
    simp [Option.toList]
  | succ f ih =>
    intro ps c done
    cases ps with
    | nil =>
      refine ⟨c, [], ?_, rfl, by simp⟩
      rw [parseLoopF_nil]
      simp [Option.toList]
    | cons l rest =>
      rcases hch : RE_CHAPTER_HEAD l with _ | ⟨num, nm⟩
      · rcases hin : RE_SECTION_INLINE l with _ | ⟨num, tl, bd⟩
        · rcases hbs : RE_SECTION_BODYSTART l with _ | ⟨num, tl, fb⟩
          · rw [parseLoopF_cons_skip hch hin hbs]
            exact ih rest c done
          · rw [parseLoopF_cons_bodystart hch hin hbs]
            obtain ⟨c', e, hmem, hname, hsect⟩ := ih (rest.dropWhile (fun x => !isStop x))
              { c with sections := c.sections ++
                [mkSection num tl (joinNl ((if fb = "" then [] else [fb]) ++
                  rest.takeWhile (fun x => !isStop x)))] } done
            refine ⟨c', mkSection num tl (joinNl ((if fb = "" then [] else [fb]) ++
              rest.takeWhile (fun x => !isStop x))) :: e, hmem, hname, ?_⟩
            rw [hsect]
            simp
        · rw [parseLoopF_cons_inline hch hin]
          obtain ⟨c', e, hmem, hname, hsect⟩ := ih rest
            { c with sections := c.sections ++ [mkSection num tl bd] } done
          refine ⟨c', mkSection num tl bd :: e, hmem, hname, ?_⟩
          rw [hsect]
          simp
      · rw [parseLoopF_cons_chapter hch]
        obtain ⟨s, hs⟩ := parseLoopF_done_sub f rest
          (some { name := startChapterName num nm, sections := [] })
          (done ++ (some c).toList)
        refine ⟨c, [], ?_, rfl, by simp⟩
        rw [hs]
        simp [Option.toList]

/-! ### The claims -/

/-- C5: the three-line Scenario A input produces a tree with title name
`TITLE 3.—The President`, one chapter `Chapter 1.—Presidential Elections.`
and one section `101. Time of choosing electors` whose body is
`Electors shall be appointed...` (for any source filename stem, since the
title line is found in the input). -/
theorem claim5_scenarioA (stem : String) :
    toXmlTree stem
      ["TITLE 3.—The President",
       "Chapter 1.—Presidential Elections.",
       "101. Time of choosing electors— Electors shall be appointed..."] =
    { titleNum := "3",
      titleName := "TITLE 3.—The President",
      chapters := [{ name := "Chapter 1.—Presidential Elections.",
                     sections := [{ name := "101. Time of choosing electors",
                                    body := "Electors shall be appointed..." }] }] } := rfl

theorem claim5_witness :
    toXmlTree "Title 3"
      ["TITLE 3.—The President",
       "Chapter 1.—Presidential Elections.",
       "101. Time of choosing electors— Electors shall be appointed..."] =
    { titleNum := "3",
      titleName := "TITLE 3.—The President",
      chapters := [{ name := "Chapter 1.—Presidential Elections.",
                     sections := [{ name := "101. Time of choosing electors",
                                    body := "Electors shall be appointed..." }] }] } :=
  claim5_scenarioA "Title 3"

/-- C1, counterexample: an input whose only content line is a section line
produces a tree with NO chapters at all — the preamble scan of
`to_xml_tree` (lines 59-68) discards every line until a chapter header,
so the section line never reaches `add_section` and the synthesized
`Chapter 0.—UNSPECIFIED.` chapter never appears in the output. -/
theorem claim1_counterexample :
    (toXmlTree "Title 3" ["101. Foo— bar"]).chapters = [] := rfl

/-- C1, amended: `add_section` does synthesize a chapter named
`Chapter 0.—UNSPECIFIED.` holding the section when it is invoked with no
chapter open, but inside `to_xml_tree` this path is unreachable: the
preamble scan discards every line that is not a chapter header, so a
section line occurring before any chapter header is dropped and (for an
input whose only content line is a section line) the output tree has no
chapters. -/
theorem claim1_amended (l : String) (rest : List String)
    (num title body : String) (done : List USChapter)
    (h : RE_CHAPTER_HEAD l = none) :
    addSection none done num title body =
      (some { name := "Chapter 0.—UNSPECIFIED.",
              sections := [mkSection num title body] }, done) ∧
    preambleDrop (l :: rest) = preambleDrop rest := by
  have e : startChapterName "0" "UNSPECIFIED" = "Chapter 0.—UNSPECIFIED." := by decide
  constructor
  · simp only [addSection, e]
  · cases hn : isNoise l with
    | true => simp [preambleDrop, hn]
    | false => simp [preambleDrop, hn, h]

theorem claim1_amended_witness :
    RE_CHAPTER_HEAD "101. Foo— bar" = none ∧
    (addSection none [] "101" "Foo" "bar" =
      (some { name := "Chapter 0.—UNSPECIFIED.",
              sections := [mkSection "101" "Foo" "bar"] }, []) ∧
     preambleDrop ["101. Foo— bar"] = preambleDrop []) :=
  ⟨by decide, claim1_amended "101. Foo— bar" [] "101" "Foo" "bar" [] (by decide)⟩

/-- C3: for every line matched by `RE_CHAPTER_HEAD`, the stored chapter name
has the form `Chapter {num}.—{text}.`, it ends in exactly one period, and
it is exactly what the main loop installs as the new current chapter for
that line. -/
theorem claim3_chapter_name {l num nm : String}
    (h : RE_CHAPTER_HEAD l = some (num, nm)) :
    (∃ core : String, startChapterName num nm =
        "Chapter " ++ num ++ ".—" ++ core ++ ".") ∧
    endsInOnePeriod (startChapterName num nm) ∧
    ∀ (rest : List String) (cur : Option USChapter) (done : List USChapter),
      parseLoop (l :: rest) cur done =
        parseLoop rest (some { name := startChapterName num nm, sections := [] })
          (done ++ cur.toList) := by
  refine ⟨⟨⟨rstripL (fun c => c = '.') (stripL nm.data)⟩, rfl⟩, ?_, ?_⟩
  · refine ⟨("Chapter " ++ num ++ ".—").data ++ rstripL (fun c => c = '.') (stripL nm.data),
      ?_, ?_⟩
    · show (("Chapter " ++ num ++ ".—" ++
        (⟨rstripL (fun c => c = '.') (stripL nm.data)⟩ : String) ++ ".")).data = _
      simp [String.data_append]
    · intro c hc
      cases hcore : rstripL (fun c => c = '.') (stripL nm.data) with
      | nil =>
        rw [hcore, List.append_nil] at hc
        simp only [String.data_append] at hc
        rw [List.getLast?_append] at hc
        have h2 : (".—" : String).data.getLast? = some '—' := rfl
        rw [h2, Option.or_some] at hc
        cases hc
        decide
      | cons d ds =>
        rw [hcore, List.getLast?_append] at hc
        have hne : (d :: ds).getLast? = some ((d :: ds).getLast (by simp)) := by
          simp [List.getLast?_eq_getLast]
        rw [hne] at hc
        simp only [Option.or_some] at hc
        cases hc
        have hlast : (rstripL (fun c => c = '.') (stripL nm.data)).getLast? =
            some ((d :: ds).getLast (by simp)) := by rw [hcore, hne]
        have := rstripL_last hlast
        simpa using this
  · intro rest cur done
    show parseLoopF (l :: rest).length (l :: rest) cur done = _
    rw [List.length_cons, parseLoopF_cons_chapter h]
    rfl

theorem claim3_witness :
    RE_CHAPTER_HEAD "Chapter 1.—Foo." = some ("1", "Foo") ∧
    endsInOnePeriod (startChapterName "1" "Foo") :=
  ⟨by decide,
   (claim3_chapter_name
     (show RE_CHAPTER_HEAD "Chapter 1.—Foo." = some ("1", "Foo") by decide)).2.1⟩

theorem secCore_head_not_digit {cs : List Char} {c0 : Char} {t : List Char}
    (hd : cs = c0 :: t) (hdig : c0.isDigit = false) : secCore cs = none := by
  unfold secCore
  rw [hd, List.takeWhile_cons_of_neg (by simp [hdig])]
  simp

/-- A TOC-noise line fails all four patterns of the main loop: it starts
with a letter (the `c` of `chapter`), so the digit-anchored patterns
fail, and the chapter-header failure is part of the noise test itself. -/
theorem isNoise_facts {l : String} (h : isNoise l = true) :
    RE_CHAPTER_HEAD l = none ∧ RE_SECTION_INLINE l = none ∧
    RE_SECTION_BODYSTART l = none ∧ RE_SECTION_HEADER l = false := by
  unfold isNoise at h
  simp only [Bool.and_eq_true, Bool.not_eq_true'] at h
  obtain ⟨⟨hpre, -⟩, hch⟩ := h
  have hch' : RE_CHAPTER_HEAD l = none := by
    cases hc : RE_CHAPTER_HEAD l with
    | none => rfl
    | some g => rw [hc] at hch; simp at hch
  have hhead : ∃ c0 t, l.data = c0 :: t ∧ Char.isDigit c0 = false := by
    cases hd : l.data with
    | nil =>
      rw [hd] at hpre
      simp [List.isPrefixOf] at hpre
    | cons c0 t =>
      rw [hd] at hpre
      simp only [List.map_cons, List.isPrefixOf, Bool.and_eq_true, beq_iff_eq] at hpre
      exact ⟨c0, t, rfl, toLower_c_not_digit hpre.1.symm⟩
  obtain ⟨c0, t, hd, hdig⟩ := hhead
  have hsec : secCore l.data = none := secCore_head_not_digit hd hdig
  refine ⟨hch', ?_, ?_, ?_⟩
  · unfold RE_SECTION_INLINE sectionInlineL
    rw [hsec]
    rfl
  · unfold RE_SECTION_BODYSTART sectionBodyStartL
    rw [hsec]
    rfl
  · unfold RE_SECTION_HEADER sectionHeaderL
    rw [hd, List.takeWhile_cons_of_neg (by simp [hdig])]
    simp

/-- C2, counterexample: the TOC-artifact line `"Chapter   Sec."`
(normalized to `"Chapter Sec."`) occurring inside a body-continuation
region is NOT skipped — it matches none of the stop patterns, so the
body scan appends it to the section body.  The claim's "does not include
the line in any section body, regardless of where in the input the line
occurs" is therefore false. -/
theorem claim2_counterexample :
    (toXmlTree "Title 3"
      ["Chapter 1.—Foo.", "101. Bar—", "Chapter   Sec.", "102. Baz— body"]).chapters =
    [{ name := "Chapter 1.—Foo.",
       sections := [{ name := "101. Bar", body := "Chapter Sec." },
                    { name := "102. Baz", body := "body" }] }] := rfl

/-- C2, amended: a line beginning with "chapter" (case-insensitively) and
containing "sec" that does not match the chapter-header pattern creates
no Chapter and no Section: the preamble scan skips it, and at the top
level of the main loop it matches no pattern and is skipped.  However it
is not a stop line for the body-continuation scan, so when it occurs
inside a body-continuation region it is included in that section's
body. -/
theorem claim2_amended (l : String) (rest : List String) (cur : Option USChapter)
    (done : List USChapter) (h : isNoise l = true) :
    parseLoop (l :: rest) cur done = parseLoop rest cur done ∧
    preambleDrop (l :: rest) = preambleDrop rest ∧
    isStop l = false := by
  obtain ⟨h1, h2, h3, h4⟩ := isNoise_facts h
  refine ⟨?_, ?_, ?_⟩
  · show parseLoopF (l :: rest).length (l :: rest) cur done = _
    rw [List.length_cons, parseLoopF_cons_skip h1 h2 h3]
    rfl
  · simp [preambleDrop, h]
  · simp [isStop, h1, h2, h4]

theorem claim2_amended_witness :
    isNoise "Chapter Sec." = true ∧
    (parseLoop ["Chapter Sec."] none [] = parseLoop [] none [] ∧
     preambleDrop ["Chapter Sec."] = preambleDrop [] ∧
     isStop "Chapter Sec." = false) :=
  ⟨by decide, claim2_amended "Chapter Sec." [] none [] (by decide)⟩

/-- C9: the parser is a single linear pass.  Each iteration of the main
loop rewrites the input `l :: rest` to the state `stepRem l rest`, which
is a suffix of `rest` (the inner body scan starts past the current line
and only advances, so no earlier line is revisited) and is strictly
shorter than the input, so the loop terminates. -/
theorem claim9_linear_pass (l : String) (rest : List String)
    (cur : Option USChapter) (done : List USChapter) :
    (∃ cur' done', parseLoop (l :: rest) cur done = parseLoop (stepRem l rest) cur' done') ∧
    stepRem l rest <:+ rest ∧ (stepRem l rest).length < (l :: rest).length := by
  have hsuf : stepRem l rest <:+ rest := by
    unfold stepRem
    rcases RE_CHAPTER_HEAD l with _ | g
    · rcases RE_SECTION_INLINE l with _ | g
      · rcases RE_SECTION_BODYSTART l with _ | g
        · exact List.suffix_refl rest
        · exact List.dropWhile_suffix _
      · exact List.suffix_refl rest
    · exact List.suffix_refl rest
  have hlen : (stepRem l rest).length < (l :: rest).length := by
    rw [List.length_cons]
    exact Nat.lt_succ_of_le hsuf.length_le
  refine ⟨?_, hsuf, hlen⟩
  have hmono : ∀ (f g : Nat) (ps : List String) (cur' : Option USChapter)
      (done' : List USChapter), ps.length ≤ f → ps.length ≤ g →
      parseLoopF f ps cur' done' = parseLoopF g ps cur' done' := by
    intro f
    induction f with
    | zero =>
      intro g ps cur' done' hf hg
      have : ps = [] := List.length_eq_zero.mp (Nat.le_zero.mp hf)
      subst this
      rw [parseLoopF_nil, parseLoopF_nil]
    | succ f ih =>
      intro g ps cur' done' hf hg
      cases ps with
      | nil => rw [parseLoopF_nil, parseLoopF_nil]
      | cons x xs =>
        cases g with
        | zero => simp at hg
        | succ g =>
          have hxf : xs.length ≤ f := by simpa using hf
          have hxg : xs.length ≤ g := by simpa using hg
          rcases hch : RE_CHAPTER_HEAD x with _ | ⟨num, nm⟩
          · rcases hin : RE_SECTION_INLINE x with _ | ⟨num, tl, bd⟩
            · rcases hbs : RE_SECTION_BODYSTART x with _ | ⟨num, tl, fb⟩
              · rw [parseLoopF_cons_skip hch hin hbs, parseLoopF_cons_skip hch hin hbs]
                exact ih g xs cur' done' hxf hxg
              · rw [parseLoopF_cons_bodystart hch hin hbs,
                  parseLoopF_cons_bodystart hch hin hbs]
                have hdl : (xs.dropWhile (fun x => !isStop x)).length ≤ xs.length :=
                  (List.dropWhile_suffix _).length_le
                exact ih g _ _ _ (le_trans hdl hxf) (le_trans hdl hxg)
            · rw [parseLoopF_cons_inline hch hin, parseLoopF_cons_inline hch hin]
              exact ih g xs _ _ hxf hxg
          · rw [parseLoopF_cons_chapter hch, parseLoopF_cons_chapter hch]
            exact ih g xs _ _ hxf hxg
  rcases hch : RE_CHAPTER_HEAD l with _ | ⟨num, nm⟩
  · rcases hin : RE_SECTION_INLINE l with _ | ⟨num, tl, bd⟩
    · rcases hbs : RE_SECTION_BODYSTART l with _ | ⟨num, tl, fb⟩
      · refine ⟨cur, done, ?_⟩
        show parseLoopF (l :: rest).length (l :: rest) cur done = _
        rw [List.length_cons, parseLoopF_cons_skip hch hin hbs]
        simp only [stepRem, hch, hin, hbs]
        rfl
      · refine ⟨(addSection cur done num tl
          (joinNl ((if fb = "" then [] else [fb]) ++
            rest.takeWhile (fun x => !isStop x)))).1,
          (addSection cur done num tl
          (joinNl ((if fb = "" then [] else [fb]) ++
            rest.takeWhile (fun x => !isStop x)))).2, ?_⟩
        show parseLoopF (l :: rest).length (l :: rest) cur done = _
        rw [List.length_cons, parseLoopF_cons_bodystart hch hin hbs]
        have hrm : stepRem l rest = rest.dropWhile (fun x => !isStop x) := by
          simp only [stepRem, hch, hin, hbs]
        rw [hrm]
        exact hmono rest.length (rest.dropWhile (fun x => !isStop x)).length _ _ _
          (List.dropWhile_suffix _).length_le (le_refl _)
    · refine ⟨(addSection cur done num tl bd).1, (addSection cur done num tl bd).2, ?_⟩
      show parseLoopF (l :: rest).length (l :: rest) cur done = _
      rw [List.length_cons, parseLoopF_cons_inline hch hin]
      simp only [stepRem, hch, hin]
      rfl
  · refine ⟨some { name := startChapterName num nm, sections := [] },
      done ++ cur.toList, ?_⟩
    show parseLoopF (l :: rest).length (l :: rest) cur done = _
    rw [List.length_cons, parseLoopF_cons_chapter hch]
    simp only [stepRem, hch]
    rfl

theorem claim9_witness :
    (∃ cur' done', parseLoop ["101. Multi—", "body", "Chapter 2.—B."] none [] =
      parseLoop (stepRem "101. Multi—" ["body", "Chapter 2.—B."]) cur' done') ∧
    stepRem "101. Multi—" ["body", "Chapter 2.—B."] <:+ ["body", "Chapter 2.—B."] ∧
    (stepRem "101. Multi—" ["body", "Chapter 2.—B."]).length <
      (["101. Multi—", "body", "Chapter 2.—B."] : List String).length :=
  claim9_linear_pass "101. Multi—" ["body", "Chapter 2.—B."] none []

theorem titleScan_none {ps : List String} (h : ∀ p ∈ ps, RE_TITLE_LINE_MIN p = none) :
    titleScan ps = none := by
  induction ps with
  | nil => rfl
  | cons p rest ih =>
    unfold titleScan
    rw [h p (by simp)]
    exact ih (fun q hq => h q (by simp [hq]))

/-- C6: when no input line matches the title pattern but the filename stem
contains `Title <digits>`, the title number is those digits and the
display name is `TITLE {num}.—` with empty descriptive text; the
function is total, so no error is possible. -/
theorem claim6_filename_fallback (stem : String) (raws : List String) (ds : List Char)
    (h1 : ∀ p ∈ processParas raws, RE_TITLE_LINE_MIN p = none)
    (h2 : titleNumSearch stem.data = some ds) :
    (toXmlTree stem raws).titleNum = (⟨ds⟩ : String) ∧
    (toXmlTree stem raws).titleName = "TITLE " ++ (⟨ds⟩ : String) ++ ".—" := by
  have ht : titleScan (processParas raws) = none := titleScan_none h1
  have e1 : (toXmlTree stem raws).titleNum =
    (buildTitleName stem (processParas raws)).1 := rfl
  have e2 : (toXmlTree stem raws).titleName =
    (buildTitleName stem (processParas raws)).2 := rfl
  rw [e1, e2]
  unfold buildTitleName
  rw [ht, h2]
  exact ⟨rfl, rfl⟩

theorem claim6_witness :
    (∀ p ∈ processParas ["hello world", "Chapter 2.—Things."],
      RE_TITLE_LINE_MIN p = none) ∧
    titleNumSearch ("Title 44 - stuff" : String).data = some ['4', '4'] ∧
    (toXmlTree "Title 44 - stuff" ["hello world", "Chapter 2.—Things."]).titleNum =
      (⟨['4', '4']⟩ : String) :=
  ⟨by decide, by decide,
   (claim6_filename_fallback "Title 44 - stuff" ["hello world", "Chapter 2.—Things."]
     ['4', '4'] (by decide) (by decide)).1⟩

/-- C10: when no input line matches the title pattern and the filename stem
contains no `Title <digits>` pattern either, the program still does not
fail: the title number falls back to the literal `"?"` and the display
name is `TITLE ?.—`. -/
theorem claim10_questionmark_fallback (stem : String) (raws : List String)
    (h1 : ∀ p ∈ processParas raws, RE_TITLE_LINE_MIN p = none)
    (h2 : titleNumSearch stem.data = none) :
    (toXmlTree stem raws).titleNum = "?" ∧
    (toXmlTree stem raws).titleName = "TITLE ?.—" := by
  have ht : titleScan (processParas raws) = none := titleScan_none h1
  have e1 : (toXmlTree stem raws).titleNum =
    (buildTitleName stem (processParas raws)).1 := rfl
  have e2 : (toXmlTree stem raws).titleName =
    (buildTitleName stem (processParas raws)).2 := rfl
  rw [e1, e2]
  unfold buildTitleName
  rw [ht, h2]
  exact ⟨rfl, rfl⟩

theorem claim10_witness :
    (∀ p ∈ processParas ["hello world"], RE_TITLE_LINE_MIN p = none) ∧
    titleNumSearch ("notes" : String).data = none ∧
    ((toXmlTree "notes" ["hello world"]).titleNum = "?" ∧
     (toXmlTree "notes" ["hello world"]).titleName = "TITLE ?.—") :=
  ⟨by decide, by decide,
   claim10_questionmark_fallback "notes" ["hello world"] (by decide) (by decide)⟩

/-- C7: two consecutive section-start lines of the shape
`<digits>. <title>—` (nothing after the em dash, so the inline pattern
fails and the body-start pattern captures an empty remainder, and the
second line starts with digits-period-space so it stops the first body
scan) each produce their own Section with an empty body string. -/
theorem claim7_empty_bodies (l1 l2 n1 t1 n2 t2 : String) (ch : USChapter)
    (done : List USChapter)
    (h1c : RE_CHAPTER_HEAD l1 = none) (h1i : RE_SECTION_INLINE l1 = none)
    (h1m : RE_SECTION_BODYSTART l1 = some (n1, t1, ""))
    (h2c : RE_CHAPTER_HEAD l2 = none) (h2i : RE_SECTION_INLINE l2 = none)
    (h2m : RE_SECTION_BODYSTART l2 = some (n2, t2, ""))
    (h2h : RE_SECTION_HEADER l2 = true) :
    parseLoop [l1, l2] (some ch) done =
      done ++ [{ ch with sections := ch.sections ++
        [{ name := n1 ++ ". " ++ pyStrip t1, body := "" },
         { name := n2 ++ ". " ++ pyStrip t2, body := "" }] }] := by
  have hstop : isStop l2 = true := by simp [isStop, h2h]
  have htw : ([l2].takeWhile (fun x => !isStop x)) = [] := by
    simp [List.takeWhile_cons, hstop]
  have hdw : ([l2].dropWhile (fun x => !isStop x)) = [l2] := by
    simp [List.dropWhile_cons, hstop]
  show parseLoopF 2 [l1, l2] (some ch) done = _
  rw [show (2 : Nat) = 1 + 1 from rfl, parseLoopF_cons_bodystart h1c h1i h1m, htw, hdw]
  simp only [if_pos rfl, List.nil_append, addSection]
  rw [parseLoopF_cons_bodystart h2c h2i h2m]
  simp only [List.takeWhile_nil, List.dropWhile_nil, if_pos rfl, List.nil_append, addSection]
  rw [parseLoopF_nil]
  have hb : joinNl [] = "" := rfl
  have hps : pyStrip "" = "" := rfl
  simp only [hb, mkSection, hps, Option.toList]
  simp [List.append_assoc]
  rfl

theorem claim7_witness :
    (RE_CHAPTER_HEAD "101. Electors—" = none ∧
     RE_SECTION_INLINE "101. Electors—" = none ∧
     RE_SECTION_BODYSTART "101. Electors—" = some ("101", "Electors", "") ∧
     RE_CHAPTER_HEAD "102. Duty—" = none ∧
     RE_SECTION_INLINE "102. Duty—" = none ∧
     RE_SECTION_BODYSTART "102. Duty—" = some ("102", "Duty", "") ∧
     RE_SECTION_HEADER "102. Duty—" = true) ∧
    parseLoop ["101. Electors—", "102. Duty—"]
        (some { name := "Chapter 1.—X.", sections := [] }) [] =
      [{ name := "Chapter 1.—X.",
         sections := [{ name := "101. " ++ pyStrip "Electors", body := "" },
                      { name := "102. " ++ pyStrip "Duty", body := "" }] }] :=
  ⟨⟨by decide, by decide, by decide, by decide, by decide, by decide, by decide⟩,
   claim7_empty_bodies "101. Electors—" "102. Duty—" "101" "Electors" "102" "Duty"
     { name := "Chapter 1.—X.", sections := [] } []
     (by decide) (by decide) (by decide) (by decide) (by decide) (by decide) (by decide)⟩

/-! ### Lemmas for the idempotence of `normalize` -/

theorem collapseAux_cons_space_true {a : Char} (h : pyIsSpace a = true) (t : List Char) :
    collapseAux true (a :: t) = collapseAux true t := by
  simp [collapseAux, h]

theorem collapseAux_cons_space_false {a : Char} (h : pyIsSpace a = true) (t : List Char) :
    collapseAux false (a :: t) = ' ' :: collapseAux true t := by
  simp [collapseAux, h]

theorem collapseAux_cons_nonspace {a : Char} (h : pyIsSpace a = false) (b : Bool)
    (t : List Char) : collapseAux b (a :: t) = a :: collapseAux false t := by
  simp [collapseAux, h]

theorem collapseAux_mem {b : Bool} {cs : List Char} {c : Char}
    (h : c ∈ collapseAux b cs) : c = ' ' ∨ (c ∈ cs ∧ pyIsSpace c = false) := by
  induction cs generalizing b with
  | nil => simp [collapseAux] at h
  | cons a t ih =>
    by_cases hpa : pyIsSpace a = true
    · simp only [collapseAux, hpa, if_true] at h
      cases b with
      | true =>
        rcases ih h with h1 | ⟨h1, h2⟩
        · exact Or.inl h1
        · exact Or.inr ⟨by simp [h1], h2⟩
      | false =>
        rcases List.mem_cons.mp h with h1 | h1
        · exact Or.inl h1
        · rcases ih h1 with h2 | ⟨h2, h3⟩
          · exact Or.inl h2
          · exact Or.inr ⟨by simp [h2], h3⟩
    · simp only [collapseAux, hpa, if_false, Bool.false_eq_true] at h
      rcases List.mem_cons.mp h with h1 | h1
      · subst h1
        exact Or.inr ⟨by simp, by simpa using hpa⟩
      · rcases ih h1 with h2 | ⟨h2, h3⟩
        · exact Or.inl h2
        · exact Or.inr ⟨by simp [h2], h3⟩

theorem collapseAux_true_head {cs : List Char} {c : Char}
    (h : (collapseAux true cs).head? = some c) : pyIsSpace c = false := by
  induction cs with
  | nil => simp [collapseAux] at h
  | cons a t ih =>
    by_cases hpa : pyIsSpace a = true
    · simp only [collapseAux, hpa, if_true] at h
      exact ih h
    · simp only [collapseAux, hpa, if_false, Bool.false_eq_true, List.head?_cons] at h
      cases h
      simpa using hpa

theorem collapseAux_chain (b : Bool) (cs : List Char) :
    List.Chain' (fun a c => ¬(a = ' ' ∧ c = ' ')) (collapseAux b cs) := by
  induction cs generalizing b with
  | nil => simp [collapseAux]
  | cons a t ih =>
    by_cases hpa : pyIsSpace a = true
    · cases b with
      | true =>
        rw [collapseAux_cons_space_true hpa]
        exact ih true
      | false =>
        rw [collapseAux_cons_space_false hpa]
        rw [List.chain'_cons']
        refine ⟨?_, ih true⟩
        intro y hy hcon
        have hys := collapseAux_true_head (Option.mem_def.mp hy)
        rw [hcon.2] at hys
        simp [pyIsSpace] at hys
    · have hpa' : pyIsSpace a = false := by simpa using hpa
      rw [collapseAux_cons_nonspace hpa']
      rw [List.chain'_cons']
      refine ⟨?_, ih false⟩
      intro y hy hcon
      rw [hcon.1] at hpa'
      simp [pyIsSpace] at hpa'

theorem collapseAux_fix : ∀ (b : Bool) (cs : List Char),
    (∀ c ∈ cs, pyIsSpace c = true → c = ' ') →
    List.Chain' (fun a c => ¬(a = ' ' ∧ c = ' ')) cs →
    (b = true → ∀ c, cs.head? = some c → c ≠ ' ') →
    collapseAux b cs = cs := by
  intro b cs
  induction cs generalizing b with
  | nil => intro _ _ _; rfl
  | cons a t ih =>
    intro hws hch hhd
    by_cases hpa : pyIsSpace a = true
    · have ha : a = ' ' := hws a (by simp) hpa
      cases b with
      | true => exact absurd ha (hhd rfl a rfl)
      | false =>
        rw [collapseAux_cons_space_false hpa, ← ha]
        congr 1
        refine ih true (fun c hc => hws c (by simp [hc])) hch.tail ?_
        intro _ c hc hceq
        have hpair := (List.chain'_cons'.mp hch).1 c hc
        exact hpair ⟨ha, hceq⟩
    · have hpa' : pyIsSpace a = false := by simpa using hpa
      rw [collapseAux_cons_nonspace hpa']
      congr 1
      refine ih false (fun c hc => hws c (by simp [hc])) hch.tail ?_
      intro hfalse
      cases hfalse

theorem stripL_subset {cs : List Char} : ∀ c ∈ stripL cs, c ∈ cs := by
  intro c hc
  unfold stripL at hc
  rw [List.mem_reverse] at hc
  have h1 := List.dropWhile_subset (l := (cs.dropWhile pyIsSpace).reverse) pyIsSpace hc
  rw [List.mem_reverse] at h1
  exact List.dropWhile_subset _ h1

theorem chain'_stripL {R : Char → Char → Prop}
    {cs : List Char} (h : List.Chain' R cs) : List.Chain' R (stripL cs) := by
  unfold stripL
  have h1 : List.Chain' R (cs.dropWhile pyIsSpace) := h.suffix (List.dropWhile_suffix _)
  have h2 : List.Chain' (flip R) (cs.dropWhile pyIsSpace).reverse :=
    List.chain'_reverse.mpr h1
  have h3 : List.Chain' (flip R) ((cs.dropWhile pyIsSpace).reverse.dropWhile pyIsSpace) :=
    h2.suffix (List.dropWhile_suffix _)
  exact List.chain'_reverse.mpr h3

theorem normalizeL_idem (cs : List Char) : normalizeL (normalizeL cs) = normalizeL cs := by
  have hm2 : ∀ c ∈ normalizeL cs, c = ' ' ∨ (pyIsSpace c = false ∧ c ≠ '–') := by
    intro c hc
    have hcK := stripL_subset c hc
    rcases collapseAux_mem hcK with h1 | ⟨h1, h2⟩
    · exact Or.inl h1
    · refine Or.inr ⟨h2, ?_⟩
      rcases List.mem_map.mp h1 with ⟨x, _, hx⟩
      subst hx
      unfold normChar
      by_cases hxe : x = '–'
      · simp [hxe]
      · simp [hxe]
  have hmap : (normalizeL cs).map normChar = normalizeL cs := by
    have : (normalizeL cs).map normChar = (normalizeL cs).map id := by
      refine List.map_congr_left ?_
      intro a ha
      rcases hm2 a ha with h1 | ⟨_, h2⟩
      · rw [h1]; rfl
      · simp [normChar, h2]
    rw [this, List.map_id]
  have hws : ∀ c ∈ normalizeL cs, pyIsSpace c = true → c = ' ' := by
    intro c hc hp
    rcases hm2 c hc with h1 | ⟨h1, _⟩
    · exact h1
    · rw [hp] at h1; cases h1
  have hch : List.Chain' (fun a c => ¬(a = ' ' ∧ c = ' ')) (normalizeL cs) :=
    chain'_stripL (collapseAux_chain false _)
  have hcol : collapseAux false (normalizeL cs) = normalizeL cs :=
    collapseAux_fix false _ hws hch (by intro h; cases h)
  have hstr : stripL (normalizeL cs) = normalizeL cs := by
    refine stripL_eq_self ?_ ?_
    · intro c hc
      exact stripL_head hc
    · intro c hc
      exact stripL_last hc
  show stripL (collapseAux false ((normalizeL cs).map normChar)) = normalizeL cs
  rw [hmap, hcol, hstr]

/-- C8: `normalize` is idempotent — normalizing an already-normalized line
returns it unchanged. -/
theorem claim8_normalize_idem (s : String) : normalize (normalize s) = normalize s := by
  show (⟨normalizeL (normalizeL s.data)⟩ : String) = ⟨normalizeL s.data⟩
  rw [normalizeL_idem]

/-! ### Lemmas for the body-accumulation claim -/

theorem goodLine_ne {s : String} (h : goodLine s = true) : s.data ≠ [] := by
  unfold goodLine at h
  simp only [Bool.and_eq_true, Bool.not_eq_true'] at h
  intro he
  rw [he] at h
  simp at h

theorem goodLine_head {s : String} (h : goodLine s = true) {c : Char}
    (hc : s.data.head? = some c) : pyIsSpace c = false := by
  unfold goodLine at h
  rw [hc] at h
  simp only [Bool.and_eq_true, Bool.not_eq_true'] at h
  exact h.1.2

theorem goodLine_last {s : String} (h : goodLine s = true) {c : Char}
    (hc : s.data.getLast? = some c) : pyIsSpace c = false := by
  unfold goodLine at h
  rw [hc] at h
  simp only [Bool.and_eq_true, Bool.not_eq_true'] at h
  exact h.2

/-- If the inline-section pattern rejects a line but the body-start pattern
accepts it, the captured first-body text is empty: the two patterns
choose the same em dash, and the inline pattern fails exactly when
nothing follows it. -/
theorem bodystart_of_inline_none {l n t fb : String}
    (h2 : RE_SECTION_INLINE l = none)
    (h3 : RE_SECTION_BODYSTART l = some (n, t, fb)) : fb = "" := by
  unfold RE_SECTION_BODYSTART sectionBodyStartL at h3
  unfold RE_SECTION_INLINE sectionInlineL at h2
  cases hsc : secCore l.data with
  | none =>
    rw [hsc] at h3
    cases h3
  | some g =>
    obtain ⟨ds, tl, u⟩ := g
    rw [hsc] at h2 h3
    by_cases hu : u = []
    · subst hu
      simp only [Option.map_some, List.dropWhile_nil] at h3
      have := congrArg (fun p => p.2.2) (Option.some.inj h3)
      exact this.symm
    · exfalso
      simp only [if_neg hu] at h2
      by_cases hv : u.dropWhile pyIsSpace = []
      · rw [if_pos hv] at h2
        cases hgl : u.getLast? with
        | none =>
          rw [List.getLast?_eq_none_iff] at hgl
          exact hu hgl
        | some c =>
          rw [hgl] at h2
          cases h2
      · rw [if_neg hv] at h2
        cases h2

theorem joinNl_edges : ∀ (bs : List String), (∀ b ∈ bs, goodLine b = true) → bs ≠ [] →
    (joinNl bs).data ≠ [] ∧
    (∀ c, (joinNl bs).data.head? = some c → pyIsSpace c = false) ∧
    (∀ c, (joinNl bs).data.getLast? = some c → pyIsSpace c = false) := by
  intro bs
  induction bs with
  | nil =>
    intro _ h
    cases h rfl
  | cons x rest ih =>
    intro hg _
    cases rest with
    | nil =>
      have hx := hg x (by simp)
      exact ⟨goodLine_ne hx, fun c hc => goodLine_head hx hc,
        fun c hc => goodLine_last hx hc⟩
    | cons y t =>
      have hx := hg x (by simp)
      obtain ⟨hne, hhd, hlast⟩ := ih (fun b hb => hg b (by simp [hb])) (by simp)
      have hdata : (joinNl (x :: y :: t)).data =
          x.data ++ ('\n' :: (joinNl (y :: t)).data) := by
        show ((x ++ "\n") ++ joinNl (y :: t)).data = _
        rw [String.data_append, String.data_append]
        simp
      refine ⟨?_, ?_, ?_⟩
      · rw [hdata]
        intro hcon
        exact goodLine_ne hx (List.append_eq_nil.mp hcon).1
      · intro c hc
        rw [hdata, List.head?_append] at hc
        cases hxd : x.data.head? with
        | none =>
          rw [List.head?_eq_none_iff] at hxd
          exact absurd hxd (goodLine_ne hx)
        | some d =>
          rw [hxd] at hc
          simp only [Option.or_some] at hc
          rw [← Option.some.inj hc]
          exact goodLine_head hx hxd
      · intro c hc
        rw [hdata, List.getLast?_append] at hc
        cases hjd : ('\n' :: (joinNl (y :: t)).data).getLast? with
        | none =>
          rw [List.getLast?_eq_none_iff] at hjd
          cases hjd
        | some d =>
          rw [hjd] at hc
          simp only [Option.or_some] at hc
          have hjd2 : (joinNl (y :: t)).data.getLast? = some d := by
            cases hjl : (joinNl (y :: t)).data.getLast? with
            | none =>
              rw [List.getLast?_eq_none_iff] at hjl
              exact absurd hjl hne
            | some e =>
              have hcons : ('\n' :: (joinNl (y :: t)).data).getLast? = some e := by
                have he : ('\n' :: (joinNl (y :: t)).data) =
                    ['\n'] ++ (joinNl (y :: t)).data := rfl
                rw [he, List.getLast?_append, hjl]
                rfl
              have hed : e = d := Option.some.inj (Eq.trans hcons.symm hjd)
              rw [hed]
          rw [← Option.some.inj hc]
          exact hlast d hjd2

theorem pyStrip_joinNl {bs : List String} (h : ∀ b ∈ bs, goodLine b = true) :
    pyStrip (joinNl bs) = joinNl bs := by
  cases bs with
  | nil => rfl
  | cons x t =>
    obtain ⟨hne, hh, hl⟩ := joinNl_edges (x :: t) h (by simp)
    exact pyStrip_eq_self hh hl

/-- C4: when a section-start line with a multi-line body is processed (the
chapter-header and inline patterns fail, the body-start pattern matches),
the continuation scan collects exactly the following lines up to but not
including the first stop line (chapter header, inline section, or
digits-plus-period), and the section stored in the output carries their
newline-join as its body, in original order with nothing dropped: the
captured first-body text is necessarily empty here, and the final
`body.strip()` of `add_section` is the identity on the join of
normalized lines. -/
theorem claim4_body_accumulation (l : String) (rest : List String)
    (num tl fb : String) (ch : USChapter) (done : List USChapter)
    (h1 : RE_CHAPTER_HEAD l = none) (h2 : RE_SECTION_INLINE l = none)
    (h3 : RE_SECTION_BODYSTART l = some (num, tl, fb))
    (hgood : ∀ b ∈ rest.takeWhile (fun x => !isStop x), goodLine b = true) :
    fb = "" ∧
    ∃ ch' ∈ parseLoop (l :: rest) (some ch) done, ∃ s ∈ ch'.sections,
      s.name = num ++ ". " ++ pyStrip tl ∧
      s.body = joinNl (rest.takeWhile (fun x => !isStop x)) := by
  have hfb : fb = "" := bodystart_of_inline_none h2 h3
  subst hfb
  refine ⟨rfl, ?_⟩
  have hstep : parseLoop (l :: rest) (some ch) done =
      parseLoopF rest.length (rest.dropWhile (fun x => !isStop x))
        (some { ch with sections := ch.sections ++
          [mkSection num tl (joinNl (rest.takeWhile (fun x => !isStop x)))] }) done := by
    show parseLoopF (l :: rest).length (l :: rest) (some ch) done = _
    rw [List.length_cons, parseLoopF_cons_bodystart h1 h2 h3]
    simp only [eq_self_iff_true, if_true, List.nil_append, addSection]
  rw [hstep]
  obtain ⟨c', extra, hmem, hname, hsect⟩ :=
    parseLoopF_cur_mem rest.length (rest.dropWhile (fun x => !isStop x))
      { ch with sections := ch.sections ++
        [mkSection num tl (joinNl (rest.takeWhile (fun x => !isStop x)))] } done
  refine ⟨c', hmem, mkSection num tl (joinNl (rest.takeWhile (fun x => !isStop x))),
    ?_, rfl, ?_⟩
  · rw [hsect]
    simp
  · show pyStrip (joinNl (rest.takeWhile (fun x => !isStop x))) = _
    exact pyStrip_joinNl hgood

theorem claim4_witness :
    (RE_CHAPTER_HEAD "101. Multi—" = none ∧
     RE_SECTION_INLINE "101. Multi—" = none ∧
     RE_SECTION_BODYSTART "101. Multi—" = some ("101", "Multi", "") ∧
     (∀ b ∈ ["first line", "second line", "102. Next— x"].takeWhile
        (fun x => !isStop x), goodLine b = true)) ∧
    ∃ ch' ∈ parseLoop ["101. Multi—", "first line", "second line", "102. Next— x"]
        (some { name := "Chapter 1.—A.", sections := [] }) [],
      ∃ s ∈ ch'.sections,
        s.name = "101" ++ ". " ++ pyStrip "Multi" ∧
        s.body = joinNl (["first line", "second line", "102. Next— x"].takeWhile
          (fun x => !isStop x)) :=
  ⟨⟨by decide, by decide, by decide, by decide⟩,
   (claim4_body_accumulation "101. Multi—" ["first line", "second line", "102. Next— x"]
     "101" "Multi" "" { name := "Chapter 1.—A.", sections := [] } []
     (by decide) (by decide) (by decide) (by decide)).2⟩

end USC
